import Mathlib

/-!
Verification of the eagletrt/libring-buffer-sw ring buffer
(`src/ring-buffer.c`, handle layout from `include/ring-buffer.h`).

The handle is embedded as a Lean structure mirroring `RingBufferInterface`:
`start`, `size`, `capacity` are `size_t` (modelled as `Nat`; no arithmetic in
the code can overflow them on the claimed inputs), `data_size` is a `uint16_t`
field (every stored value is reduced mod 2^16 where the C performs the
implicit narrowing conversion), the two critical-section hooks are function
pointers (modelled by `CsHook`: NULL arguments are replaced by the dummy hook
at init, as in the C), and `data` is a byte region (`Option` distinguishes a
NULL pointer from an allocated block; bytes are `Nat`).

NULL argument pointers are modelled as `none` / `Bool` flags; `memcpy` in and
out of the backing region is modelled positionally by `writeBytes`/`readBytes`.
-/

abbrev Bytes := List Nat

/-- `memcpy(dst + off, src, n)` restricted to the `dst` region:
bytes `off ≤ i < off + n` of `dst` are replaced by the first `n` bytes of
`src`, everything else is untouched; the length of `dst` is preserved. -/
def writeBytes (dst : Bytes) (off : Nat) (src : Bytes) (n : Nat) : Bytes :=
  (List.range dst.length).map fun i =>
    if off ≤ i ∧ i < off + n then src.getD (i - off) 0 else dst.getD i 0

/-- `memcpy(out, src + off, n)`: the `n` bytes of `src` starting at `off`. -/
def readBytes (src : Bytes) (off n : Nat) : Bytes :=
  (List.range n).map fun i => src.getD (off + i) 0

/-- `RingBufferReturnCode` from `include/ring-buffer.h`. -/
inductive RingBufferReturnCode where
  | ok
  | nullPointer
  | empty
  | full
deriving DecidableEq, Repr

/-- A critical-section hook slot: at init a NULL argument is replaced by
`ring_buffer_cs_dummy`, a non-NULL function pointer is kept (identified by an
abstract address). -/
inductive CsHook where
  | dummy
  | user (addr : Nat)
deriving DecidableEq, Repr

/-- The handle (`RingBufferInterface` layout from `include/ring-buffer.h`):
`size_t start; size_t size; uint16_t data_size; size_t capacity;` the two
hooks, and `void *data`.  `data = none` models a NULL data pointer. -/
structure RingBufferHnadler where
  start : Nat
  size : Nat
  data_size : Nat
  capacity : Nat
  cs_enter : CsHook
  cs_exit : CsHook
  data : Option Bytes
deriving DecidableEq, Repr

/-- The ternary `cs != NULL ? cs : ring_buffer_cs_dummy` used by init. -/
def hookOfPtr : Option Nat → CsHook
  | some a => .user a
  | none => .dummy

/-- Modelled from the spec: `arena_allocator_api_calloc(arena, data_size,
capacity)` — the arena allocator is an external dependency whose source is not
in this repository; per the spec it returns `element_size * capacity` bytes of
zeroed memory, or NULL when the request cannot be satisfied (`allocOk`
selects which). -/
def arena_allocator_api_calloc (allocOk : Bool) (data_size capacity : Nat) :
    Option Bytes :=
  if allocOk then some (List.replicate (data_size * capacity) 0) else none

/-- `ring_buffer_init` (ring-buffer.c:26-45).  A NULL `buffer` or `arena` is
rejected first; then every handle field is assigned (the `size_t` element
size is narrowed into the `uint16_t` field), the backing block is requested
from the allocator with the full (untruncated) element size, and a NULL
allocation result is reported after those assignments. -/
def ring_buffer_init (buffer : Option RingBufferHnadler) (data_size capacity : Nat)
    (cs_enter cs_exit : Option Nat) (arenaPresent allocOk : Bool) :
    RingBufferReturnCode × Option RingBufferHnadler :=
  match buffer with
  | none => (.nullPointer, none)
  | some b =>
    if arenaPresent then
      let b1 : RingBufferHnadler :=
        { start := 0
          size := 0
          data_size := data_size % 65536
          capacity := capacity
          cs_enter := hookOfPtr cs_enter
          cs_exit := hookOfPtr cs_exit
          data := arena_allocator_api_calloc allocOk data_size capacity }
      if b1.data = none then (.nullPointer, some b1) else (.ok, some b1)
    else (.nullPointer, some b)

/-- `ring_buffer_push_front` (ring-buffer.c:65-89). -/
def ring_buffer_push_front (buffer : Option RingBufferHnadler)
    (item : Option Bytes) : RingBufferReturnCode × Option RingBufferHnadler :=
  match buffer, item with
  | none, _ => (.nullPointer, none)
  | some b, none => (.nullPointer, some b)
  | some b, some it =>
    if b.size ≥ b.capacity then (.full, some b)
    else
      let start1 := (if b.start = 0 then b.capacity else b.start) - 1
      (.ok, some { b with
        start := start1
        size := b.size + 1
        data := b.data.map fun bs =>
          writeBytes bs (start1 * b.data_size) it b.data_size })

/-- The target-slot computation of `ring_buffer_push_back`
(ring-buffer.c:103-105): `cur = start + size`, then one conditional
subtraction of `capacity`. -/
def push_back_target (b : RingBufferHnadler) : Nat :=
  if b.start + b.size ≥ b.capacity then b.start + b.size - b.capacity
  else b.start + b.size

/-- `ring_buffer_push_back` (ring-buffer.c:91-115). -/
def ring_buffer_push_back (buffer : Option RingBufferHnadler)
    (item : Option Bytes) : RingBufferReturnCode × Option RingBufferHnadler :=
  match buffer, item with
  | none, _ => (.nullPointer, none)
  | some b, none => (.nullPointer, some b)
  | some b, some it =>
    if b.size ≥ b.capacity then (.full, some b)
    else
      (.ok, some { b with
        size := b.size + 1
        data := b.data.map fun bs =>
          writeBytes bs (push_back_target b * b.data_size) it b.data_size })

/-- `ring_buffer_pop_front` (ring-buffer.c:117-143).  The out pointer is
optional (`outPresent`); the third component is the copied-out element, or
`none` when no copy happened. -/
def ring_buffer_pop_front (buffer : Option RingBufferHnadler)
    (outPresent : Bool) :
    RingBufferReturnCode × Option RingBufferHnadler × Option Bytes :=
  match buffer with
  | none => (.nullPointer, none, none)
  | some b =>
    if b.size = 0 then (.empty, some b, none)
    else
      let out := if outPresent then
          some (readBytes (b.data.getD []) (b.start * b.data_size) b.data_size)
        else none
      let start1 := if b.start + 1 ≥ b.capacity then 0 else b.start + 1
      (.ok, some { b with start := start1, size := b.size - 1 }, out)

/-- The last-slot computation shared by `ring_buffer_pop_back`,
`ring_buffer_back` and `ring_buffer_peek_back` (ring-buffer.c:158-160,
203-205, 242-244): `cur = start + size - 1`, one conditional subtraction. -/
def pop_back_target (b : RingBufferHnadler) : Nat :=
  if b.start + b.size - 1 ≥ b.capacity then b.start + b.size - 1 - b.capacity
  else b.start + b.size - 1

/-- `ring_buffer_pop_back` (ring-buffer.c:145-169). -/
def ring_buffer_pop_back (buffer : Option RingBufferHnadler)
    (outPresent : Bool) :
    RingBufferReturnCode × Option RingBufferHnadler × Option Bytes :=
  match buffer with
  | none => (.nullPointer, none, none)
  | some b =>
    if b.size = 0 then (.empty, some b, none)
    else
      let out := if outPresent then
          some (readBytes (b.data.getD []) (pop_back_target b * b.data_size)
            b.data_size)
        else none
      (.ok, some { b with size := b.size - 1 }, out)

/-- `ring_buffer_front` (ring-buffer.c:171-189); the out pointer is
mandatory here. -/
def ring_buffer_front (buffer : Option RingBufferHnadler) (outPresent : Bool) :
    RingBufferReturnCode × Option RingBufferHnadler × Option Bytes :=
  match buffer with
  | none => (.nullPointer, none, none)
  | some b =>
    if outPresent then
      if b.size = 0 then (.empty, some b, none)
      else (.ok, some b,
        some (readBytes (b.data.getD []) (b.start * b.data_size) b.data_size))
    else (.nullPointer, some b, none)

/-- `ring_buffer_back` (ring-buffer.c:191-212). -/
def ring_buffer_back (buffer : Option RingBufferHnadler) (outPresent : Bool) :
    RingBufferReturnCode × Option RingBufferHnadler × Option Bytes :=
  match buffer with
  | none => (.nullPointer, none, none)
  | some b =>
    if outPresent then
      if b.size = 0 then (.empty, some b, none)
      else (.ok, some b,
        some (readBytes (b.data.getD []) (pop_back_target b * b.data_size)
          b.data_size))
    else (.nullPointer, some b, none)

/-- `ring_buffer_peek_front` (ring-buffer.c:214-228): returns the byte offset
of the front element inside the backing region (a pointer into `data`), or
`none` for a NULL handle or an empty buffer.  The handle is not mutated. -/
def ring_buffer_peek_front (buffer : Option RingBufferHnadler) : Option Nat :=
  match buffer with
  | none => none
  | some b => if b.size = 0 then none else some (b.start * b.data_size)

/-- `ring_buffer_peek_back` (ring-buffer.c:230-249). -/
def ring_buffer_peek_back (buffer : Option RingBufferHnadler) : Option Nat :=
  match buffer with
  | none => none
  | some b => if b.size = 0 then none else some (pop_back_target b * b.data_size)

/-- `ring_buffer_clear` (ring-buffer.c:251-259): only `start` and `size` are
assigned; every other field and the backing bytes are untouched. -/
def ring_buffer_clear (buffer : Option RingBufferHnadler) :
    RingBufferReturnCode × Option RingBufferHnadler :=
  match buffer with
  | none => (.nullPointer, none)
  | some b => (.ok, some { b with start := 0, size := 0 })

/-- `ring_buffer_is_empty` (ring-buffer.c:47-51). -/
def ring_buffer_is_empty (buffer : Option RingBufferHnadler) : Bool :=
  match buffer with
  | none => true
  | some b => b.size = 0

/-- `ring_buffer_is_full` (ring-buffer.c:53-57). -/
def ring_buffer_is_full (buffer : Option RingBufferHnadler) : Bool :=
  match buffer with
  | none => false
  | some b => b.size ≥ b.capacity

/-- `ring_buffer_size` (ring-buffer.c:59-63). -/
def ring_buffer_size (buffer : Option RingBufferHnadler) : Nat :=
  match buffer with
  | none => 0
  | some b => b.size

/-- One operation of the public mutating/reading surface, for quantifying
over operation sequences. -/
inductive RBOp where
  | pushFront (item : Option Bytes)
  | pushBack (item : Option Bytes)
  | popFront (outPresent : Bool)
  | popBack (outPresent : Bool)
  | front (outPresent : Bool)
  | back (outPresent : Bool)
  | peekFront
  | peekBack
  | clear

/-- The handle state after running one operation on a non-NULL handle
(every operation on a `some` handle returns a `some` handle, so the
`getD` defaults never fire). -/
def rbStep (b : RingBufferHnadler) (op : RBOp) : RingBufferHnadler :=
  match op with
  | .pushFront it => ((ring_buffer_push_front (some b) it).2).getD b
  | .pushBack it => ((ring_buffer_push_back (some b) it).2).getD b
  | .popFront o => ((ring_buffer_pop_front (some b) o).2.1).getD b
  | .popBack o => ((ring_buffer_pop_back (some b) o).2.1).getD b
  | .front o => ((ring_buffer_front (some b) o).2.1).getD b
  | .back o => ((ring_buffer_back (some b) o).2.1).getD b
  | .peekFront => b
  | .peekBack => b
  | .clear => ((ring_buffer_clear (some b)).2).getD b

/-- The bytes of the `i`-th logical element (slot `(start + i) mod capacity`). -/
def slotBytes (b : RingBufferHnadler) (i : Nat) : Bytes :=
  readBytes (b.data.getD []) (((b.start + i) % b.capacity) * b.data_size)
    b.data_size

/-- The logical content of the buffer, front to back. -/
def bufItems (b : RingBufferHnadler) : List Bytes :=
  (List.range b.size).map (slotBytes b)

/-- Push a list of elements with `ring_buffer_push_back`, left to right. -/
def pushBackAll (b : RingBufferHnadler) (es : List Bytes) : RingBufferHnadler :=
  es.foldl (fun s e => ((ring_buffer_push_back (some s) (some e)).2).getD s) b

/-- Perform `n` `ring_buffer_pop_front` calls, collecting the copied-out
elements in call order. -/
def popFrontN : RingBufferHnadler → Nat → RingBufferHnadler × List Bytes
  | b, 0 => (b, [])
  | b, n + 1 =>
    let r := ring_buffer_pop_front (some b) true
    let b1 := (r.2.1).getD b
    let p := popFrontN b1 n
    (p.1, (r.2.2).getD [] :: p.2)

/-- Perform `n` `ring_buffer_pop_back` calls, collecting the copied-out
elements in call order. -/
def popBackN : RingBufferHnadler → Nat → RingBufferHnadler × List Bytes
  | b, 0 => (b, [])
  | b, n + 1 =>
    let r := ring_buffer_pop_back (some b) true
    let b1 := (r.2.1).getD b
    let p := popBackN b1 n
    (p.1, (r.2.2).getD [] :: p.2)

/-- A placeholder handle used as the pre-init contents of a fresh handle
variable. -/
def blankHnadler : RingBufferHnadler :=
  { start := 0, size := 0, data_size := 0, capacity := 0,
    cs_enter := .dummy, cs_exit := .dummy, data := none }

/-- A small well-formed handle used to instantiate universally quantified
theorems: capacity 3, 2-byte elements, zeroed 6-byte backing block. -/
def sampleBuf23 : RingBufferHnadler :=
  { start := 0, size := 0, data_size := 2, capacity := 3,
    cs_enter := .dummy, cs_exit := .dummy, data := some (List.replicate 6 0) }

/-- A sample operation sequence exercising every public operation. -/
def sampleOps : List RBOp :=
  [RBOp.pushBack (some [1, 0]), RBOp.pushFront (some [2, 0]),
    RBOp.pushBack (some [3, 0]), RBOp.pushBack (some [4, 0]),
    RBOp.popFront true, RBOp.popBack false, RBOp.front true,
    RBOp.back true, RBOp.peekFront, RBOp.peekBack, RBOp.clear,
    RBOp.popFront true]

/-- `sampleBuf23` filled to capacity. -/
def sampleFull23 : RingBufferHnadler := { sampleBuf23 with size := 3 }

/-- `sampleBuf23` holding two elements starting at slot 2 (wrapped state). -/
def samplePart23 : RingBufferHnadler :=
  { sampleBuf23 with
    start := 2
    size := 2
    data := some [30, 31, 0, 0, 10, 11] }

/-- `sampleBuf23` with `start` advanced to `capacity - 1` and one element:
the wraparound configuration of the spec. -/
def sampleWrap23 : RingBufferHnadler :=
  { sampleBuf23 with start := 2, size := 1 }

/-- A handle with distinctive pre-existing field values, used to observe
which fields an operation overwrites. -/
def sampleDirty : RingBufferHnadler :=
  { start := 4, size := 2, data_size := 4, capacity := 5,
    cs_enter := .user 77, cs_exit := .user 88,
    data := some (List.replicate 20 9) }

/-- The C1 scenario, step by step: a fresh capacity-3 handle with 4-byte
elements, then the exact call sequence of the spec's concrete scenario. -/
def c1_b0 : RingBufferHnadler :=
  ((ring_buffer_init (some blankHnadler) 4 3 none none true true).2).getD
    blankHnadler

def c1_r1 : RingBufferReturnCode × Option RingBufferHnadler :=
  ring_buffer_push_back (some c1_b0) (some [1, 0, 0, 0])

def c1_b1 : RingBufferHnadler := (c1_r1.2).getD c1_b0

def c1_r2 : RingBufferReturnCode × Option RingBufferHnadler :=
  ring_buffer_push_back (some c1_b1) (some [2, 0, 0, 0])

def c1_b2 : RingBufferHnadler := (c1_r2.2).getD c1_b1

def c1_r3 : RingBufferReturnCode × Option RingBufferHnadler :=
  ring_buffer_push_back (some c1_b2) (some [3, 0, 0, 0])

def c1_b3 : RingBufferHnadler := (c1_r3.2).getD c1_b2

def c1_r4 : RingBufferReturnCode × Option RingBufferHnadler :=
  ring_buffer_push_back (some c1_b3) (some [4, 0, 0, 0])

def c1_b4 : RingBufferHnadler := (c1_r4.2).getD c1_b3

def c1_r5 : RingBufferReturnCode × Option RingBufferHnadler × Option Bytes :=
  ring_buffer_pop_front (some c1_b4) true

def c1_b5 : RingBufferHnadler := (c1_r5.2.1).getD c1_b4

def c1_r6 : RingBufferReturnCode × Option RingBufferHnadler :=
  ring_buffer_push_back (some c1_b5) (some [4, 0, 0, 0])

def c1_b6 : RingBufferHnadler := (c1_r6.2).getD c1_b5

def c1_r7 : RingBufferReturnCode × Option RingBufferHnadler × Option Bytes :=
  ring_buffer_pop_front (some c1_b6) true

def c1_b7 : RingBufferHnadler := (c1_r7.2.1).getD c1_b6

def c1_r8 : RingBufferReturnCode × Option RingBufferHnadler × Option Bytes :=
  ring_buffer_pop_front (some c1_b7) true

def c1_b8 : RingBufferHnadler := (c1_r8.2.1).getD c1_b7

def c1_r9 : RingBufferReturnCode × Option RingBufferHnadler × Option Bytes :=
  ring_buffer_pop_front (some c1_b8) true

def c1_b9 : RingBufferHnadler := (c1_r9.2.1).getD c1_b8

def c1_r10 : RingBufferReturnCode × Option RingBufferHnadler × Option Bytes :=
  ring_buffer_pop_front (some c1_b9) true

/-- C1: starting from a freshly initialized handle with capacity 3 and 4-byte
integer elements, push_back(1), push_back(2), push_back(3) all return Ok
leaving size 3; push_back(4) returns Full with size still 3; pop_front
returns 1 leaving size 2 and start 1; push_back(4) then returns Ok storing
into slot 0 with size 3; two more pop_front calls return 2 then 3; one more
pop_front returns 4; and a final pop_front returns Empty. -/
theorem rb_C1_concrete_scenario :
    c1_r1.1 = .ok ∧ c1_r2.1 = .ok ∧ c1_r3.1 = .ok ∧ c1_b3.size = 3 ∧
    c1_r4.1 = .full ∧ c1_b4.size = 3 ∧
    c1_r5.1 = .ok ∧ c1_r5.2.2 = some [1, 0, 0, 0] ∧
    c1_b5.size = 2 ∧ c1_b5.start = 1 ∧
    c1_r6.1 = .ok ∧ c1_b6.size = 3 ∧
    readBytes (c1_b6.data.getD []) 0 4 = [4, 0, 0, 0] ∧
    c1_r7.1 = .ok ∧ c1_r7.2.2 = some [2, 0, 0, 0] ∧
    c1_r8.1 = .ok ∧ c1_r8.2.2 = some [3, 0, 0, 0] ∧
    c1_r9.1 = .ok ∧ c1_r9.2.2 = some [4, 0, 0, 0] ∧
    c1_r10.1 = .empty := by decide

/-! ### Byte-level lemmas about `writeBytes` / `readBytes` -/

theorem length_writeBytes (dst src : Bytes) (off n : Nat) :
    (writeBytes dst off src n).length = dst.length := by
  simp [writeBytes]

theorem getD_writeBytes (dst src : Bytes) (off n i : Nat) :
    (writeBytes dst off src n).getD i 0 =
      if i < dst.length then
        (if off ≤ i ∧ i < off + n then src.getD (i - off) 0 else dst.getD i 0)
      else 0 := by
  by_cases h : i < dst.length
  · rw [if_pos h]
    have hlen : i < (writeBytes dst off src n).length := by
      rwa [length_writeBytes]
    rw [List.getD_eq_getElem?_getD, List.getElem?_eq_getElem hlen]
    simp [writeBytes]
  · rw [if_neg h]
    exact List.getD_eq_default _ _ (by rw [length_writeBytes]; omega)

theorem length_readBytes (src : Bytes) (off n : Nat) :
    (readBytes src off n).length = n := by
  simp [readBytes]

theorem getElem_readBytes (src : Bytes) (off n i : Nat)
    (h : i < (readBytes src off n).length) :
    (readBytes src off n)[i] = src.getD (off + i) 0 := by
  simp [readBytes]

theorem readBytes_writeBytes_disjoint (dst src : Bytes) (woff n roff m : Nat)
    (h : roff + m ≤ woff ∨ woff + n ≤ roff) :
    readBytes (writeBytes dst woff src n) roff m = readBytes dst roff m := by
  apply List.ext_getElem (by simp [length_readBytes])
  intro i h1 h2
  rw [getElem_readBytes _ _ _ _ h1, getElem_readBytes _ _ _ _ h2]
  have hi : i < m := by rwa [length_readBytes] at h1
  rw [getD_writeBytes]
  by_cases hL : roff + i < dst.length
  · rw [if_pos hL, if_neg (by omega)]
  · rw [if_neg hL, List.getD_eq_default _ _ (by omega)]

theorem readBytes_writeBytes_same (dst src : Bytes) (off n : Nat)
    (hsrc : src.length = n) (hfit : off + n ≤ dst.length) :
    readBytes (writeBytes dst off src n) off n = src := by
  apply List.ext_getElem (by rw [length_readBytes, hsrc])
  intro i h1 h2
  rw [getElem_readBytes _ _ _ _ h1]
  have hi : i < n := by rwa [length_readBytes] at h1
  rw [getD_writeBytes, if_pos (by omega), if_pos (by omega)]
  have hoff : off + i - off = i := by omega
  rw [hoff, List.getD_eq_getElem?_getD, List.getElem?_eq_getElem h2]
  rfl

/-! ### Index arithmetic -/

theorem push_back_target_eq_mod (b : RingBufferHnadler)
    (hstart : b.start < b.capacity) (hroom : b.size < b.capacity) :
    push_back_target b = (b.start + b.size) % b.capacity := by
  unfold push_back_target
  split
  · next h =>
    rw [Nat.mod_eq_sub_mod h, Nat.mod_eq_of_lt (by omega)]
  · next h =>
    rw [Nat.mod_eq_of_lt (by omega)]

theorem pop_back_target_eq_mod (b : RingBufferHnadler)
    (hstart : b.start < b.capacity) (hsz : b.size ≤ b.capacity) :
    pop_back_target b = (b.start + b.size - 1) % b.capacity := by
  unfold pop_back_target
  split
  · next h =>
    rw [Nat.mod_eq_sub_mod h, Nat.mod_eq_of_lt (by omega)]
  · next h =>
    rw [Nat.mod_eq_of_lt (by omega)]

theorem slot_mod_ne {cap start i s : Nat} (hs : s < cap) (hi : i < s) :
    (start + i) % cap ≠ (start + s) % cap := by
  intro h
  have h2 : i ≡ s [MOD cap] := Nat.ModEq.add_left_cancel' start h
  have h3 : i % cap = s % cap := h2
  rw [Nat.mod_eq_of_lt (by omega), Nat.mod_eq_of_lt hs] at h3
  omega

theorem slot_regions_disjoint {cap i j : Nat} (_hi : i < cap) (_hj : j < cap)
    (hne : i ≠ j) (ds : Nat) :
    i * ds + ds ≤ j * ds ∨ j * ds + ds ≤ i * ds := by
  rcases Nat.lt_or_ge i j with h | h
  · left
    have h1 : (i + 1) * ds ≤ j * ds := Nat.mul_le_mul_right ds h
    have h2 : (i + 1) * ds = i * ds + ds := by ring
    omega
  · right
    have h0 : j < i := lt_of_le_of_ne h (Ne.symm hne)
    have h1 : (j + 1) * ds ≤ i * ds := Nat.mul_le_mul_right ds h0
    have h2 : (j + 1) * ds = j * ds + ds := by ring
    omega

/-! ### Abstraction lemmas: each operation against the logical content -/

theorem bufItems_congr (b b' : RingBufferHnadler) (hsz : b'.size = b.size)
    (h : ∀ i, i < b.size → slotBytes b' i = slotBytes b i) :
    bufItems b' = bufItems b := by
  unfold bufItems
  rw [hsz]
  exact List.map_congr_left fun i hi => h i (List.mem_range.1 hi)

theorem slotBytes_def (b : RingBufferHnadler) (i : Nat) :
    slotBytes b i =
      readBytes (b.data.getD []) (((b.start + i) % b.capacity) * b.data_size)
        b.data_size := rfl

theorem pushBack_spec (b : RingBufferHnadler) (e bs : Bytes)
    (hdata : b.data = some bs) (hbs : bs.length = b.data_size * b.capacity)
    (hstart : b.start < b.capacity) (hroom : b.size < b.capacity)
    (he : e.length = b.data_size) :
    ring_buffer_push_back (some b) (some e) =
      (.ok, some { b with
        size := b.size + 1
        data := some (writeBytes bs (push_back_target b * b.data_size) e
          b.data_size) }) ∧
    bufItems { b with
        size := b.size + 1
        data := some (writeBytes bs (push_back_target b * b.data_size) e
          b.data_size) } = bufItems b ++ [e] := by
  have hfull : ¬ b.size ≥ b.capacity := by omega
  constructor
  · simp [ring_buffer_push_back, hfull, hdata]
  · set ds := b.data_size with hds
    set tgt := push_back_target b with htgt
    have htgtmod : tgt = (b.start + b.size) % b.capacity :=
      push_back_target_eq_mod b hstart hroom
    have htgtlt : tgt < b.capacity := by
      rw [htgtmod]; exact Nat.mod_lt _ (by omega)
    have hfit : tgt * ds + ds ≤ bs.length := by
      rw [hbs]
      calc tgt * ds + ds = (tgt + 1) * ds := by ring
        _ ≤ b.capacity * ds := Nat.mul_le_mul_right ds (Nat.succ_le_of_lt htgtlt)
        _ = ds * b.capacity := Nat.mul_comm _ _
    unfold bufItems
    simp only [List.range_succ, List.map_append, List.map_cons, List.map_nil]
    congr 1
    · -- old elements unchanged
      apply List.map_congr_left
      intro i hi
      have hi' : i < b.size := List.mem_range.1 hi
      rw [slotBytes_def, slotBytes_def]
      dsimp only
      simp only [hdata, Option.getD_some]
      apply readBytes_writeBytes_disjoint
      have hne : (b.start + i) % b.capacity ≠ tgt := by
        rw [htgtmod]; exact slot_mod_ne hroom hi'
      have hilt : (b.start + i) % b.capacity < b.capacity :=
        Nat.mod_lt _ (by omega)
      exact slot_regions_disjoint hilt htgtlt hne ds
    · -- the new element lands in slot `tgt`
      rw [slotBytes_def]
      dsimp only
      simp only [Option.getD_some]
      rw [← htgtmod, readBytes_writeBytes_same bs e (tgt * ds) ds he hfit]

theorem popFront_start_eq_mod (b : RingBufferHnadler)
    (hstart : b.start < b.capacity) :
    (if b.start + 1 ≥ b.capacity then 0 else b.start + 1) =
      (b.start + 1) % b.capacity := by
  split
  · next h =>
    have hc : b.start + 1 = b.capacity := by omega
    rw [hc, Nat.mod_self]
  · next h =>
    rw [Nat.mod_eq_of_lt (by omega)]

theorem popFront_spec (b : RingBufferHnadler)
    (hstart : b.start < b.capacity) (hsz : 0 < b.size) :
    ring_buffer_pop_front (some b) true =
      (.ok, some { b with
        start := if b.start + 1 ≥ b.capacity then 0 else b.start + 1
        size := b.size - 1 }, some (slotBytes b 0)) ∧
    bufItems b = slotBytes b 0 :: bufItems { b with
        start := if b.start + 1 ≥ b.capacity then 0 else b.start + 1
        size := b.size - 1 } := by
  have hne : ¬ b.size = 0 := by omega
  constructor
  · have hout : readBytes (b.data.getD []) (b.start * b.data_size) b.data_size
        = slotBytes b 0 := by
      rw [slotBytes_def, Nat.add_zero, Nat.mod_eq_of_lt hstart]
    simp [ring_buffer_pop_front, hne, hout]
  · obtain ⟨k, hk⟩ : ∃ k, b.size = k + 1 := ⟨b.size - 1, by omega⟩
    unfold bufItems
    dsimp only
    rw [hk]
    simp only [Nat.add_sub_cancel, List.range_succ_eq_map, List.map_cons,
      List.map_map]
    congr 1
    apply List.map_congr_left
    intro i _hi
    rw [Function.comp_apply, slotBytes_def, slotBytes_def]
    dsimp only
    rw [popFront_start_eq_mod b hstart, Nat.mod_add_mod,
      show b.start + i.succ = b.start + 1 + i from by omega]

theorem popBack_spec (b : RingBufferHnadler)
    (hstart : b.start < b.capacity) (hszpos : 0 < b.size)
    (hsz : b.size ≤ b.capacity) :
    ring_buffer_pop_back (some b) true =
      (.ok, some { b with size := b.size - 1 },
        some (slotBytes b (b.size - 1))) ∧
    bufItems b =
      bufItems { b with size := b.size - 1 } ++ [slotBytes b (b.size - 1)] := by
  have hne : ¬ b.size = 0 := by omega
  constructor
  · have hout : readBytes (b.data.getD []) (pop_back_target b * b.data_size)
        b.data_size = slotBytes b (b.size - 1) := by
      rw [slotBytes_def, pop_back_target_eq_mod b hstart hsz,
        show b.start + b.size - 1 = b.start + (b.size - 1) from by omega]
    simp [ring_buffer_pop_back, hne, hout]
  · obtain ⟨k, hk⟩ : ∃ k, b.size = k + 1 := ⟨b.size - 1, by omega⟩
    unfold bufItems
    dsimp only
    rw [hk]
    simp only [Nat.add_sub_cancel, List.range_succ, List.map_append,
      List.map_cons, List.map_nil]
    rfl

/-- Well-formedness of an in-use handle: `start` in range, `size` within
capacity, a non-NULL backing block of `data_size * capacity` bytes. -/
def rbWF (b : RingBufferHnadler) : Prop :=
  b.start < b.capacity ∧ b.size ≤ b.capacity ∧
    ∃ bs, b.data = some bs ∧ bs.length = b.data_size * b.capacity

theorem pushBackAll_spec : ∀ (es : List Bytes) (b : RingBufferHnadler),
    rbWF b → b.size + es.length ≤ b.capacity →
    (∀ e ∈ es, e.length = b.data_size) →
    rbWF (pushBackAll b es) ∧
    (pushBackAll b es).start = b.start ∧
    (pushBackAll b es).size = b.size + es.length ∧
    (pushBackAll b es).capacity = b.capacity ∧
    (pushBackAll b es).data_size = b.data_size ∧
    bufItems (pushBackAll b es) = bufItems b ++ es
  | [], b, hwf, _hc, _hl => by
    simp [pushBackAll]
    exact hwf
  | e :: es, b, hwf, hc, hl => by
    obtain ⟨hstart, hsz, bs, hdata, hbs⟩ := hwf
    have hroom : b.size < b.capacity := by
      have := hc; simp [List.length_cons] at this; omega
    have he : e.length = b.data_size := hl e (by simp)
    obtain ⟨heq, hitems⟩ := pushBack_spec b e bs hdata hbs hstart hroom he
    have hstep : pushBackAll b (e :: es) =
        pushBackAll { b with
          size := b.size + 1
          data := some (writeBytes bs (push_back_target b * b.data_size) e
            b.data_size) } es := by
      unfold pushBackAll
      rw [List.foldl_cons, heq]
      rfl
    set b1 : RingBufferHnadler := { b with
      size := b.size + 1
      data := some (writeBytes bs (push_back_target b * b.data_size) e
        b.data_size) } with hb1
    have hwf1 : rbWF b1 := by
      refine ⟨hstart, by simp [hb1]; omega, ?_⟩
      exact ⟨_, rfl, by rw [length_writeBytes]; exact hbs⟩
    have hc1 : b1.size + es.length ≤ b1.capacity := by
      have := hc; simp [List.length_cons] at this
      simp [hb1]; omega
    have hl1 : ∀ x ∈ es, x.length = b1.data_size := by
      intro x hx; exact hl x (by simp [hx])
    obtain ⟨h1, h2, h3, h4, h5, h6⟩ := pushBackAll_spec es b1 hwf1 hc1 hl1
    rw [hstep]
    refine ⟨h1, h2, by rw [h3]; simp [hb1]; omega, h4, h5, ?_⟩
    rw [h6, hitems]
    simp

theorem popFrontN_spec : ∀ (n : Nat) (b : RingBufferHnadler),
    rbWF b → b.size = n → (popFrontN b n).2 = bufItems b
  | 0, b, _hwf, hsz => by
    unfold popFrontN bufItems
    rw [hsz]
    simp
  | n + 1, b, hwf, hsz => by
    obtain ⟨hstart, hszle, bs, hdata, hbs⟩ := hwf
    have hpos : 0 < b.size := by omega
    obtain ⟨heq, hitems⟩ := popFront_spec b hstart hpos
    set b1 : RingBufferHnadler := { b with
      start := if b.start + 1 ≥ b.capacity then 0 else b.start + 1
      size := b.size - 1 } with hb1
    have hwf1 : rbWF b1 := by
      refine ⟨?_, by simp [hb1]; omega, ⟨bs, hdata, hbs⟩⟩
      simp only [hb1]
      rw [popFront_start_eq_mod b hstart]
      exact Nat.mod_lt _ (by omega)
    have hsz1 : b1.size = n := by simp [hb1]; omega
    unfold popFrontN
    rw [heq]
    simp only [Option.getD_some]
    rw [popFrontN_spec n b1 hwf1 hsz1, hitems]

theorem popBackN_spec : ∀ (n : Nat) (b : RingBufferHnadler),
    rbWF b → b.size = n → (popBackN b n).2 = (bufItems b).reverse
  | 0, b, _hwf, hsz => by
    unfold popBackN bufItems
    rw [hsz]
    simp
  | n + 1, b, hwf, hsz => by
    obtain ⟨hstart, hszle, bs, hdata, hbs⟩ := hwf
    have hpos : 0 < b.size := by omega
    obtain ⟨heq, hitems⟩ := popBack_spec b hstart hpos hszle
    set b1 : RingBufferHnadler := { b with size := b.size - 1 } with hb1
    have hwf1 : rbWF b1 := by
      exact ⟨hstart, by simp [hb1]; omega, ⟨bs, hdata, hbs⟩⟩
    have hsz1 : b1.size = n := by simp [hb1]; omega
    unfold popBackN
    rw [heq]
    simp only [Option.getD_some]
    rw [popBackN_spec n b1 hwf1 hsz1, hitems]
    simp

/-! ### Claim theorems -/

/-- C2: for every `n` with `1 ≤ n ≤ capacity` and every sequence of elements
`e1, …, en`, pushing `e1 … en` via `push_back` into an initialized empty
buffer and then performing `n` `pop_front` calls returns the elements in the
same order, while `n` `pop_back` calls instead return them in reverse
order. -/
theorem rb_C2_fifo_lifo_order (b : RingBufferHnadler) (es : List Bytes)
    (bs : Bytes) (_h1 : 1 ≤ es.length) (h2 : es.length ≤ b.capacity)
    (hl : ∀ e ∈ es, e.length = b.data_size)
    (hstart : b.start < b.capacity) (hsize : b.size = 0)
    (hdata : b.data = some bs) (hbs : bs.length = b.data_size * b.capacity) :
    (popFrontN (pushBackAll b es) es.length).2 = es ∧
    (popBackN (pushBackAll b es) es.length).2 = es.reverse := by
  have hwf : rbWF b := ⟨hstart, by omega, bs, hdata, hbs⟩
  have hc : b.size + es.length ≤ b.capacity := by omega
  obtain ⟨hwf1, _hst, hsz1, _hcap, _hds, hitems⟩ :=
    pushBackAll_spec es b hwf hc hl
  have hempty : bufItems b = [] := by
    unfold bufItems; rw [hsize]; simp
  have hsz2 : (pushBackAll b es).size = es.length := by omega
  constructor
  · rw [popFrontN_spec es.length (pushBackAll b es) hwf1 hsz2, hitems, hempty]
    simp
  · rw [popBackN_spec es.length (pushBackAll b es) hwf1 hsz2, hitems, hempty]
    simp

theorem rb_C2_witness :
    1 ≤ ([[1, 2], [3, 4], [5, 6]] : List Bytes).length ∧
    (popFrontN (pushBackAll sampleBuf23 [[1, 2], [3, 4], [5, 6]]) 3).2 =
      [[1, 2], [3, 4], [5, 6]] ∧
    (popBackN (pushBackAll sampleBuf23 [[1, 2], [3, 4], [5, 6]]) 3).2 =
      [[5, 6], [3, 4], [1, 2]] := by
  refine ⟨by decide, ?_⟩
  exact rb_C2_fifo_lifo_order sampleBuf23 [[1, 2], [3, 4], [5, 6]]
    (List.replicate 6 0) (by decide) (by decide) (by decide) (by decide)
    (by decide) rfl (by decide)

/-- One-operation preservation of the capacity invariant. -/
theorem rbStep_size_le (b : RingBufferHnadler) (op : RBOp)
    (h : b.size ≤ b.capacity) :
    (rbStep b op).size ≤ (rbStep b op).capacity := by
  cases op with
  | pushFront it =>
    cases it with
    | none => simpa [rbStep, ring_buffer_push_front] using h
    | some e =>
      by_cases hf : b.size ≥ b.capacity <;>
        simp [rbStep, ring_buffer_push_front, hf] <;> omega
  | pushBack it =>
    cases it with
    | none => simpa [rbStep, ring_buffer_push_back] using h
    | some e =>
      by_cases hf : b.size ≥ b.capacity <;>
        simp [rbStep, ring_buffer_push_back, hf] <;> omega
  | popFront o =>
    by_cases hz : b.size = 0
    · simp [rbStep, ring_buffer_pop_front, hz, h]
    · simp [rbStep, ring_buffer_pop_front, hz]
      omega
  | popBack o =>
    by_cases hz : b.size = 0
    · simp [rbStep, ring_buffer_pop_back, hz, h]
    · simp [rbStep, ring_buffer_pop_back, hz]
      omega
  | front o =>
    cases o <;> by_cases hz : b.size = 0 <;>
      simp [rbStep, ring_buffer_front, hz, h]
  | back o =>
    cases o <;> by_cases hz : b.size = 0 <;>
      simp [rbStep, ring_buffer_back, hz, h]
  | peekFront => simpa [rbStep] using h
  | peekBack => simpa [rbStep] using h
  | clear => simp [rbStep, ring_buffer_clear]

/-- C3: for every initialized handle and every sequence of push_front,
push_back, pop_front, pop_back, front, back, peek_front, peek_back and clear
operations, the invariant `0 ≤ size ≤ capacity` holds after every call (each
operation preserves it). -/
theorem rb_C3_capacity_invariant (b : RingBufferHnadler) (ops : List RBOp)
    (h : b.size ≤ b.capacity) :
    0 ≤ (ops.foldl rbStep b).size ∧
    (ops.foldl rbStep b).size ≤ (ops.foldl rbStep b).capacity := by
  refine ⟨Nat.zero_le _, ?_⟩
  induction ops generalizing b with
  | nil => exact h
  | cons op ops ih =>
    rw [List.foldl_cons]
    exact ih _ (rbStep_size_le b op h)

theorem rb_C3_witness :
    sampleBuf23.size ≤ sampleBuf23.capacity ∧
    0 ≤ (sampleOps.foldl rbStep sampleBuf23).size ∧
    (sampleOps.foldl rbStep sampleBuf23).size ≤
      (sampleOps.foldl rbStep sampleBuf23).capacity := by
  exact ⟨by decide, rb_C3_capacity_invariant sampleBuf23 sampleOps (by decide)⟩

/-- C4: for every handle at `size == capacity`, push_front and push_back
return Full and leave the whole handle (start, size, backing bytes)
unchanged; for every handle at `size == 0`, pop_front, pop_back, front and
back return Empty and leave the whole handle unchanged. -/
theorem rb_C4_full_empty_noop (b : RingBufferHnadler) (it : Bytes) (o : Bool) :
    (b.size = b.capacity →
      ring_buffer_push_front (some b) (some it) = (.full, some b) ∧
      ring_buffer_push_back (some b) (some it) = (.full, some b)) ∧
    (b.size = 0 →
      ring_buffer_pop_front (some b) o = (.empty, some b, none) ∧
      ring_buffer_pop_back (some b) o = (.empty, some b, none) ∧
      ring_buffer_front (some b) true = (.empty, some b, none) ∧
      ring_buffer_back (some b) true = (.empty, some b, none)) := by
  constructor
  · intro hf
    have hge : b.size ≥ b.capacity := by omega
    exact ⟨by simp [ring_buffer_push_front, hge],
      by simp [ring_buffer_push_back, hge]⟩
  · intro hz
    refine ⟨?_, ?_, ?_, ?_⟩ <;>
      simp [ring_buffer_pop_front, ring_buffer_pop_back, ring_buffer_front,
        ring_buffer_back, hz]

theorem rb_C4_witness :
    sampleFull23.size = sampleFull23.capacity ∧
    ring_buffer_push_back (some sampleFull23) (some [9, 9]) =
      (.full, some sampleFull23) ∧
    sampleBuf23.size = 0 ∧
    ring_buffer_pop_front (some sampleBuf23) true =
      (.empty, some sampleBuf23, none) := by
  refine ⟨by decide, ?_, by decide, ?_⟩
  · exact ((rb_C4_full_empty_noop sampleFull23 [9, 9] true).1 (by decide)).2
  · exact ((rb_C4_full_empty_noop sampleBuf23 [9, 9] true).2 (by decide)).1

/-- C5 counterexample: `ring_buffer_init` on a present handle and arena with
a failing allocation returns NullReference, yet the handle has been mutated
(here its `capacity` field changed from 5 to 3, among others), so this
NullReference is not "reported before any mutation is attempted". -/
theorem rb_C5_counterexample :
    (ring_buffer_init (some sampleDirty) 4 3 none none true false).1 =
      .nullPointer ∧
    (ring_buffer_init (some sampleDirty) 4 3 none none true false).2 ≠
      some sampleDirty := by decide

/-- C5 amended: a NullReference caused by an absent handle, absent item,
absent output reference (front/back) or absent arena is reported before any
mutation and leaves the handle unchanged; but init's allocation-failure
NullReference is reported only after every handle field has been reassigned
(`start = 0`, `size = 0`, truncated `data_size`, new `capacity`, hooks,
`data = NULL`) — a partial state change does occur there. -/
theorem rb_C5_amended_null_paths (b : RingBufferHnadler) (it : Bytes)
    (S C : Nat) (e1 e2 : Option Nat) (o aOk : Bool) :
    ring_buffer_init none S C e1 e2 true aOk = (.nullPointer, none) ∧
    ring_buffer_init (some b) S C e1 e2 false aOk = (.nullPointer, some b) ∧
    ring_buffer_push_front (some b) none = (.nullPointer, some b) ∧
    ring_buffer_push_back (some b) none = (.nullPointer, some b) ∧
    ring_buffer_push_front none (some it) = (.nullPointer, none) ∧
    ring_buffer_push_back none (some it) = (.nullPointer, none) ∧
    ring_buffer_pop_front none o = (.nullPointer, none, none) ∧
    ring_buffer_pop_back none o = (.nullPointer, none, none) ∧
    ring_buffer_front (some b) false = (.nullPointer, some b, none) ∧
    ring_buffer_back (some b) false = (.nullPointer, some b, none) ∧
    ring_buffer_front none o = (.nullPointer, none, none) ∧
    ring_buffer_back none o = (.nullPointer, none, none) ∧
    ring_buffer_clear none = (.nullPointer, none) ∧
    ring_buffer_init (some b) S C e1 e2 true false =
      (.nullPointer, some
        { start := 0
          size := 0
          data_size := S % 65536
          capacity := C
          cs_enter := hookOfPtr e1
          cs_exit := hookOfPtr e2
          data := none }) :=
  ⟨rfl, rfl, rfl, rfl, rfl, rfl, rfl, rfl, rfl, rfl, rfl, rfl, rfl, rfl⟩

/-- C6: for every non-full handle with `start < capacity`, push_back writes
the new element into slot `(start + size) mod capacity`, and the single
conditional subtraction of `capacity` computes exactly that modulus; in
particular with capacity `N ≥ 2`, `start = N - 1` and `size = 1`, a
push_back lands at index 0, never at index `N`. -/
theorem rb_C6_pushback_target_mod (b : RingBufferHnadler) (it bs : Bytes)
    (hdata : b.data = some bs)
    (hstart : b.start < b.capacity) (hroom : b.size < b.capacity) :
    push_back_target b = (b.start + b.size) % b.capacity ∧
    ring_buffer_push_back (some b) (some it) =
      (.ok, some { b with
        size := b.size + 1
        data := some (writeBytes bs
          (((b.start + b.size) % b.capacity) * b.data_size) it
          b.data_size) }) ∧
    (2 ≤ b.capacity → b.start = b.capacity - 1 → b.size = 1 →
      push_back_target b = 0) := by
  have hmod := push_back_target_eq_mod b hstart hroom
  have hfull : ¬ b.size ≥ b.capacity := by omega
  refine ⟨hmod, ?_, ?_⟩
  · simp [ring_buffer_push_back, hfull, hdata, hmod]
  · intro _h2 hs hsz
    rw [hmod, hs, hsz, show b.capacity - 1 + 1 = b.capacity from by omega,
      Nat.mod_self]

theorem rb_C6_witness :
    sampleWrap23.start < sampleWrap23.capacity ∧
    sampleWrap23.size < sampleWrap23.capacity ∧
    push_back_target sampleWrap23 =
      (sampleWrap23.start + sampleWrap23.size) % sampleWrap23.capacity ∧
    push_back_target sampleWrap23 = 0 := by
  have h := rb_C6_pushback_target_mod sampleWrap23 [7, 8]
    (List.replicate 6 0) rfl (by decide) (by decide)
  exact ⟨by decide, by decide, h.1, h.2.2 (by decide) (by decide) (by decide)⟩

/-- The success path of `ring_buffer_push_front` as an equation: the new
`start` is `capacity - 1` on wrap (old `start == 0`), else `start - 1`, and
the element bytes are copied to that slot. -/
theorem pushFront_eq (b : RingBufferHnadler) (v bs : Bytes)
    (hdata : b.data = some bs) (hroom : b.size < b.capacity) :
    ring_buffer_push_front (some b) (some v) =
      (.ok, some { b with
        start := (if b.start = 0 then b.capacity else b.start) - 1
        size := b.size + 1
        data := some (writeBytes bs
          (((if b.start = 0 then b.capacity else b.start) - 1) * b.data_size)
          v b.data_size) }) := by
  have hfull : ¬ b.size ≥ b.capacity := by omega
  simp [ring_buffer_push_front, hfull, hdata]

/-- C7: for every initialized handle with `size == 0` and `capacity ≥ 1` and
every element value `v`, push_front(v) followed immediately by pop_front
returns exactly `v` unchanged in the output buffer and restores
`size == 0`. -/
theorem rb_C7_pushfront_popfront_roundtrip (b : RingBufferHnadler)
    (v bs : Bytes) (hdata : b.data = some bs)
    (hbs : bs.length = b.data_size * b.capacity)
    (hcap : 1 ≤ b.capacity) (hstart : b.start < b.capacity)
    (hempty : b.size = 0) (hv : v.length = b.data_size) :
    (ring_buffer_push_front (some b) (some v)).1 = .ok ∧
    (ring_buffer_pop_front (ring_buffer_push_front (some b) (some v)).2
      true).1 = .ok ∧
    (ring_buffer_pop_front (ring_buffer_push_front (some b) (some v)).2
      true).2.2 = some v ∧
    ((ring_buffer_pop_front (ring_buffer_push_front (some b) (some v)).2
      true).2.1.getD b).size = 0 := by
  have hroom : b.size < b.capacity := by omega
  rw [pushFront_eq b v bs hdata hroom]
  have hs1 : (if b.start = 0 then b.capacity else b.start) - 1 < b.capacity := by
    split <;> omega
  have hfit : ((if b.start = 0 then b.capacity else b.start) - 1) *
      b.data_size + b.data_size ≤ bs.length := by
    rw [hbs]
    calc ((if b.start = 0 then b.capacity else b.start) - 1) * b.data_size +
          b.data_size
        = (((if b.start = 0 then b.capacity else b.start) - 1) + 1) *
          b.data_size := by ring
      _ ≤ b.capacity * b.data_size :=
          Nat.mul_le_mul_right _ (Nat.succ_le_of_lt hs1)
      _ = b.data_size * b.capacity := Nat.mul_comm _ _
  have hout := readBytes_writeBytes_same bs v
    (((if b.start = 0 then b.capacity else b.start) - 1) * b.data_size)
    b.data_size hv hfit
  have hne : ¬ (b.size + 1 = 0) := by omega
  refine ⟨rfl, ?_, ?_, ?_⟩ <;>
    simp [ring_buffer_pop_front, hne, hout, hempty]

theorem rb_C7_witness :
    sampleBuf23.size = 0 ∧ 1 ≤ sampleBuf23.capacity ∧
    (ring_buffer_push_front (some sampleBuf23) (some [5, 6])).1 = .ok ∧
    (ring_buffer_pop_front
      (ring_buffer_push_front (some sampleBuf23) (some [5, 6])).2 true).2.2 =
      some [5, 6] ∧
    ((ring_buffer_pop_front
      (ring_buffer_push_front (some sampleBuf23) (some [5, 6])).2
      true).2.1.getD sampleBuf23).size = 0 := by
  have h := rb_C7_pushfront_popfront_roundtrip sampleBuf23 [5, 6]
    (List.replicate 6 0) rfl (by decide) (by decide) (by decide) (by decide)
    (by decide)
  exact ⟨by decide, by decide, h.1, h.2.2.1, h.2.2.2⟩

/-- C8: pop_front and pop_back return NullReference only when the handle
itself is absent; on every non-empty handle a NULL output buffer still
returns Ok, removes the element exactly as when an output buffer is given
(same resulting handle state) and merely skips the copy-out. -/
theorem rb_C8_pop_null_out_contract (b : RingBufferHnadler) (o : Bool) :
    (ring_buffer_pop_front none o).1 = .nullPointer ∧
    (ring_buffer_pop_back none o).1 = .nullPointer ∧
    (ring_buffer_pop_front (some b) o).1 ≠ .nullPointer ∧
    (ring_buffer_pop_back (some b) o).1 ≠ .nullPointer ∧
    (b.size ≠ 0 →
      (ring_buffer_pop_front (some b) false).1 = .ok ∧
      (ring_buffer_pop_front (some b) false).2.1 =
        (ring_buffer_pop_front (some b) true).2.1 ∧
      (ring_buffer_pop_front (some b) false).2.2 = none ∧
      (ring_buffer_pop_back (some b) false).1 = .ok ∧
      (ring_buffer_pop_back (some b) false).2.1 =
        (ring_buffer_pop_back (some b) true).2.1 ∧
      (ring_buffer_pop_back (some b) false).2.2 = none) := by
  refine ⟨rfl, rfl, ?_, ?_, ?_⟩
  · by_cases hz : b.size = 0 <;> simp [ring_buffer_pop_front, hz]
  · by_cases hz : b.size = 0 <;> simp [ring_buffer_pop_back, hz]
  · intro hz
    refine ⟨?_, ?_, ?_, ?_, ?_, ?_⟩ <;>
      simp [ring_buffer_pop_front, ring_buffer_pop_back, hz]

theorem rb_C8_witness :
    samplePart23.size ≠ 0 ∧
    (ring_buffer_pop_front (some samplePart23) false).1 = .ok ∧
    (ring_buffer_pop_front (some samplePart23) false).2.1 =
      (ring_buffer_pop_front (some samplePart23) true).2.1 ∧
    (ring_buffer_pop_front (some samplePart23) false).2.2 = none := by
  have h := (rb_C8_pop_null_out_contract samplePart23 true).2.2.2.2 (by decide)
  exact ⟨by decide, h.1, h.2.1, h.2.2.1⟩

/-- C9: for every non-null handle, clear returns Ok and sets `start = 0`,
`size = 0` while leaving the backing bytes and the `data_size`, `capacity`,
hook and `data` fields unchanged; a second clear yields the identical state,
and previously stored bytes are not zeroed. -/
theorem rb_C9_clear_frame (b : RingBufferHnadler) :
    ring_buffer_clear (some b) =
      (.ok, some { b with start := 0, size := 0 }) ∧
    ring_buffer_clear (some ({ b with start := 0, size := 0 })) =
      (.ok, some { b with start := 0, size := 0 }) ∧
    ({ b with start := 0, size := 0 } : RingBufferHnadler).data = b.data ∧
    ({ b with start := 0, size := 0 } : RingBufferHnadler).data_size =
      b.data_size ∧
    ({ b with start := 0, size := 0 } : RingBufferHnadler).capacity =
      b.capacity ∧
    ({ b with start := 0, size := 0 } : RingBufferHnadler).cs_enter =
      b.cs_enter ∧
    ({ b with start := 0, size := 0 } : RingBufferHnadler).cs_exit =
      b.cs_exit :=
  ⟨rfl, rfl, rfl, rfl, rfl, rfl, rfl⟩

/-- C10: the handle stores the element byte-size in a 16-bit field while
init accepts an arbitrary size: the recorded `data_size` is `S mod 2^16`
(= `S mod 65536`), subsequent slot-offset and copy computations use the
recorded field (shown here for push_front), and for `S = 65536 ≥ 2^16` the
recorded size (0) differs from the requested one while the allocation
request still uses the full `S` (the block has `S * capacity` bytes). -/
theorem rb_C10_datasize_truncation (b b2 : RingBufferHnadler)
    (S C : Nat) (e1 e2 : Option Nat) (it bs : Bytes) :
    ((ring_buffer_init (some b) S C e1 e2 true true).2.getD b).data_size =
      S % 65536 ∧
    ((ring_buffer_init (some b) S C e1 e2 true true).2.getD b).data =
      some (List.replicate (S * C) 0) ∧
    (b2.data = some bs → b2.size < b2.capacity →
      ring_buffer_push_front (some b2) (some it) =
        (.ok, some { b2 with
          start := (if b2.start = 0 then b2.capacity else b2.start) - 1
          size := b2.size + 1
          data := some (writeBytes bs
            (((if b2.start = 0 then b2.capacity else b2.start) - 1) *
              b2.data_size) it b2.data_size) })) ∧
    ((ring_buffer_init (some b) 65536 C e1 e2 true true).2.getD b).data_size
      = 0 ∧
    (0 : Nat) ≠ 65536 ∧
    ((ring_buffer_init (some b) 65536 C e1 e2 true true).2.getD b).data =
      some (List.replicate (65536 * C) 0) := by
  refine ⟨?_, ?_, ?_, ?_, by omega, ?_⟩
  · simp [ring_buffer_init, arena_allocator_api_calloc]
  · simp [ring_buffer_init, arena_allocator_api_calloc]
  · intro hdata hroom
    exact pushFront_eq b2 it bs hdata hroom
  · simp [ring_buffer_init, arena_allocator_api_calloc]
  · simp [ring_buffer_init, arena_allocator_api_calloc]

theorem rb_C10_witness :
    ((ring_buffer_init (some blankHnadler) 65536 1 none none true
      true).2.getD blankHnadler).data_size = 0 ∧
    ((ring_buffer_init (some blankHnadler) 65536 1 none none true
      true).2.getD blankHnadler).data = some (List.replicate 65536 0) ∧
    sampleBuf23.data = some (List.replicate 6 0) ∧
    ring_buffer_push_front (some sampleBuf23) (some [7, 8]) =
      (.ok, some { sampleBuf23 with
        start := 2
        size := 1
        data := some (writeBytes (List.replicate 6 0) 4 [7, 8] 2) }) := by
  have h := rb_C10_datasize_truncation blankHnadler sampleBuf23 65536 1
    none none [7, 8] (List.replicate 6 0)
  exact ⟨h.2.2.2.1, h.2.2.2.2.2, rfl, h.2.2.1 rfl (by decide)⟩
